import Mathlib

/-!
Verification of the work-pattern resolution core (`workpattern/__init__.py`).
The Python module selects, for a subject (employee) and an optional
reference date, the best work-pattern assignment out of a JSON document of
schedule definitions, then aggregates the winning definition's week tables
into weekly/per-day minute totals.  This file gives a shallow embedding of
that module: JSON values are modelled by `JVal` (with numeric literals
restricted to integers, the only kind the resolution logic distinguishes),
Python string coercions by the `py*` functions, and each `_helper` of the
source by a Lean definition of the same name in camel case.  Strings are
processed through `List Char` with structural recursion so that every
definition evaluates inside the kernel.
-/

/-- JSON-like values as produced by `json.loads`.  Numeric literals are
modelled as integers (`jint`); `jnull` is Python `None`. -/
inductive JVal : Type where
  | jnull : JVal
  | jbool : Bool → JVal
  | jint : Int → JVal
  | jstr : String → JVal
  | jlist : List JVal → JVal
  | jobj : List (String × JVal) → JVal

/-- Python whitespace for `str.strip()` (ASCII subset). -/
def pyIsSpace (c : Char) : Bool :=
  c == ' ' || c == '\t' || c == '\n' || c == '\x0d' || c == '\x0b' || c == '\x0c'

/-- `str.strip()` on a character list: drop leading and trailing whitespace. -/
def pyStripChars (l : List Char) : List Char :=
  ((l.dropWhile pyIsSpace).reverse.dropWhile pyIsSpace).reverse

/-- `str.strip()` on strings. -/
def pyStrip (s : String) : String :=
  ⟨pyStripChars s.data⟩

/-- `str.split(sep)` for a one-character separator: split at every
occurrence, keeping empty segments (so it never returns `[]`). -/
def splitOnCharAux (sep : Char) : List Char → List Char → List (List Char)
  | [], acc => [acc.reverse]
  | c :: cs, acc =>
      if c == sep then acc.reverse :: splitOnCharAux sep cs []
      else splitOnCharAux sep cs (c :: acc)

/-- `str.split(sep)` for a one-character separator. -/
def splitOnChar (sep : Char) (l : List Char) : List (List Char) :=
  splitOnCharAux sep l []

/-- All characters are ASCII digits. -/
def allDigits (l : List Char) : Bool :=
  l.all Char.isDigit

/-- Numeric value of a digit string (most significant first). -/
def digitsVal (l : List Char) : Nat :=
  l.foldl (fun n c => 10 * n + (c.toNat - 48)) 0

/-- Python `repr` of a JSON value, used by `str` inside containers. -/
def pyRepr : JVal → String
  | .jnull => "None"
  | .jbool true => "True"
  | .jbool false => "False"
  | .jint n => toString n
  | .jstr s => "\x27" ++ s ++ "\x27"
  | .jlist l => "[" ++ String.intercalate ", " (l.attach.map (fun x => pyRepr x.1)) ++ "]"
  | .jobj l =>
      "\x7b" ++
        String.intercalate ", "
          (l.attach.map (fun kv => "\x27" ++ kv.1.1 ++ "\x27: " ++ pyRepr kv.1.2)) ++
      "\x7d"
decreasing_by
  · have := List.sizeOf_lt_of_mem x.2
    simp only [JVal.jlist.sizeOf_spec]
    omega
  · have h1 := List.sizeOf_lt_of_mem kv.2
    have h2 : sizeOf kv.1.2 < sizeOf kv.1 := by
      cases h : kv.1 with
      | mk a b => simp [h]
    simp only [JVal.jobj.sizeOf_spec]
    omega

/-- Python `str` of a JSON value. -/
def pyToStr : JVal → String
  | .jnull => "None"
  | .jbool true => "True"
  | .jbool false => "False"
  | .jint n => toString n
  | .jstr s => s
  | v => pyRepr v

/-- Python truthiness of a JSON value. -/
def pyTruthy : JVal → Bool
  | .jnull => false
  | .jbool b => b
  | .jint n => n != 0
  | .jstr s => s != ""
  | .jlist l => !l.isEmpty
  | .jobj l => !l.isEmpty

/-- Models `str(d.get(key) or "")`: missing key or falsy value gives the
empty string, otherwise the Python string form of the value. -/
def pyStrOrEmpty : Option JVal → String
  | none => ""
  | some v => if pyTruthy v then pyToStr v else ""

/-- Models Python `int(s)` on a string: optional sign followed by digits,
surrounding whitespace allowed; anything else fails. -/
def pyIntOfChars (l : List Char) : Option Int :=
  match pyStripChars l with
  | [] => none
  | c :: cs =>
      if c == '-' then
        if cs ≠ [] ∧ allDigits cs then some (-(digitsVal cs : Int)) else none
      else if c == '+' then
        if cs ≠ [] ∧ allDigits cs then some ((digitsVal cs : Int)) else none
      else if allDigits (c :: cs) then some ((digitsVal (c :: cs) : Int)) else none

/-- Models Python `int(float(s))` on a string: an optional sign, then a
plain decimal literal (digits with at most one dot, at least one digit),
truncated toward zero. -/
def pyFloatTruncOfChars (l : List Char) : Option Int :=
  match pyStripChars l with
  | [] => none
  | c :: cs =>
      let signed : Bool := c == '-'
      let body := if c == '-' || c == '+' then cs else c :: cs
      match splitOnChar '.' body with
      | [ip] =>
          if ip ≠ [] ∧ allDigits ip then
            some (if signed then -(digitsVal ip : Int) else (digitsVal ip : Int))
          else none
      | [ip, fp] =>
          if (ip ≠ [] ∨ fp ≠ []) ∧ allDigits ip ∧ allDigits fp then
            some (if signed then -(digitsVal ip : Int) else (digitsVal ip : Int))
          else none
      | _ => none

/-- Models `int(x)` on a JSON value (`TypeError`/`ValueError` gives `none`). -/
def pyIntOfJVal : Option JVal → Option Int
  | some (.jint n) => some n
  | some (.jbool b) => some (if b then 1 else 0)
  | some (.jstr s) => pyIntOfChars s.data
  | _ => none

/-- Models `int(float(x))` on a JSON value (failure gives `none`). -/
def pyFloatTruncOfJVal : JVal → Option Int
  | .jint n => some n
  | .jbool b => some (if b then 1 else 0)
  | .jstr s => pyFloatTruncOfChars s.data
  | _ => none

/-- Calendar date as compared by Python `datetime.date` (chronologically,
i.e. lexicographically on year, month, day). -/
structure Date where
  year : Nat
  month : Nat
  day : Nat
deriving DecidableEq, Repr

/-- Lexicographic packaging of a date, defining its order. -/
def Date.lex (d : Date) : Nat ×ₗ Nat ×ₗ Nat :=
  toLex (d.year, toLex (d.month, d.day))

instance : LinearOrder Date :=
  LinearOrder.lift' Date.lex (by
    rintro ⟨a, b, c⟩ ⟨x, y, z⟩ h
    simp only [Date.lex, toLex_inj, Prod.mk.injEq] at h
    obtain ⟨h1, h2⟩ := h
    simp_all)

/-- Date-time as compared by Python `datetime.datetime`. -/
structure DateTime where
  year : Nat
  month : Nat
  day : Nat
  hour : Nat
  minute : Nat
  second : Nat
deriving DecidableEq, Repr

/-- Lexicographic packaging of a date-time, defining its order. -/
def DateTime.lex (t : DateTime) : Nat ×ₗ Nat ×ₗ Nat ×ₗ Nat ×ₗ Nat ×ₗ Nat :=
  toLex (t.year, toLex (t.month, toLex (t.day, toLex (t.hour, toLex (t.minute, t.second)))))

instance : LinearOrder DateTime :=
  LinearOrder.lift' DateTime.lex (by
    rintro ⟨a1, a2, a3, a4, a5, a6⟩ ⟨b1, b2, b3, b4, b5, b6⟩ h
    simp only [DateTime.lex, toLex_inj, Prod.mk.injEq] at h
    obtain ⟨g1, g2, g3, g4, g5, g6⟩ := h
    simp_all)

/-- Gregorian leap-year rule used by `datetime`. -/
def isLeapYear (y : Nat) : Bool :=
  y % 4 == 0 && (y % 100 != 0 || y % 400 == 0)

/-- Days in a month, as validated by `datetime.date`. -/
def daysInMonth (y m : Nat) : Nat :=
  if m == 2 then (if isLeapYear y then 29 else 28)
  else if m == 4 || m == 6 || m == 9 || m == 11 then 30
  else 31

/-- `strptime` field `%Y`: exactly four digits, and `datetime` requires a
year of at least 1. -/
def parseYearChars (l : List Char) : Option Nat :=
  if l.length == 4 && allDigits l then
    let y := digitsVal l
    if 1 ≤ y then some y else none
  else none

/-- `strptime` numeric field of one or two digits constrained to an
inclusive range. -/
def parseBoundedChars (lo hi : Nat) (l : List Char) : Option Nat :=
  if (l.length == 1 || l.length == 2) && allDigits l then
    let v := digitsVal l
    if lo ≤ v ∧ v ≤ hi then some v else none
  else none

/-- The date part of `strptime("%Y-%m-%d")` on a stripped string. -/
def parseDateChars (l : List Char) : Option Date :=
  match splitOnChar '-' l with
  | [ys, ms, ds] =>
      match parseYearChars ys, parseBoundedChars 1 12 ms, parseBoundedChars 1 31 ds with
      | some y, some m, some d =>
          if d ≤ daysInMonth y m then some ⟨y, m, d⟩ else none
      | _, _, _ => none
  | _ => none

/-- `_parse_date_yyyy_mm_dd`: strip, empty gives `none`, otherwise
`strptime("%Y-%m-%d")` with failures mapped to `none`. -/
def parseDateYYYYMMDD (s : String) : Option Date :=
  match pyStripChars s.data with
  | [] => none
  | t => parseDateChars t

/-- The time-of-day part `%H:%M:%S` (seconds above 59 are rejected by the
`datetime` constructor). -/
def parseTimeChars (l : List Char) : Option (Nat × Nat × Nat) :=
  match splitOnChar ':' l with
  | [hs, ms, ss] =>
      match parseBoundedChars 0 23 hs, parseBoundedChars 0 59 ms, parseBoundedChars 0 59 ss with
      | some h, some m, some s => some (h, m, s)
      | _, _, _ => none
  | _ => none

/-- One timestamp format: date and time joined by the given separator. -/
def parseTimeStampWith (sep : Char) (l : List Char) : Option DateTime :=
  match splitOnChar sep l with
  | [dpart, tpart] =>
      match parseDateChars dpart, parseTimeChars tpart with
      | some d, some hms => some ⟨d.year, d.month, d.day, hms.1, hms.2.1, hms.2.2⟩
      | _, _ => none
  | _ => none

/-- `_parse_timestamp`: strip, empty gives `none`, then try
`"%Y-%m-%d %H:%M:%S"` and `"%Y-%m-%dT%H:%M:%S"` in that order. -/
def parseTimeStamp (s : String) : Option DateTime :=
  match pyStripChars s.data with
  | [] => none
  | t =>
      match parseTimeStampWith ' ' t with
      | some dt => some dt
      | none => parseTimeStampWith 'T' t

/-- `dict.get(key)` on a JSON value: `none` when the receiver is not an
object or the key is missing (in the source every receiver is checked to
be a dict before `.get` is called). -/
def jget : JVal → String → Option JVal
  | .jobj fs, k => List.lookup k fs
  | _, _ => none

/-- `isinstance(x, dict)`. -/
def JVal.isObj : JVal → Bool
  | .jobj _ => true
  | _ => false

/-- `_normalise_week_list`: a list keeps only its dict elements, a lone
dict becomes a one-element list, anything else is empty. -/
def normaliseWeekList (pattern : JVal) : List JVal :=
  match jget pattern "Week" with
  | some (.jlist l) => l.filter JVal.isObj
  | some (.jobj fs) => [.jobj fs]
  | _ => []

/-- One day entry of `_extract_weekdetail_minutes`: non-dict entries are
skipped; a dict contributes `int(float(...))` of its working-minutes field
with every failure mapped to zero. -/
def minutesOfField (mins : Option JVal) : Int :=
  match mins with
  | none => 0
  | some .jnull => 0
  | some v =>
      if pyStripChars (pyToStr v).data = [] then 0
      else
        match pyFloatTruncOfJVal v with
        | some n => n
        | none => 0

/-- Loop body of `_extract_weekdetail_minutes`: running total and appended
per-day list. -/
def weekDayStep (acc : Int × List Int) (day : JVal) : Int × List Int :=
  if day.isObj then
    let m := minutesOfField (jget day "TotalWorkingMins")
    (acc.1 + m, acc.2 ++ [m])
  else acc

/-- `_extract_weekdetail_minutes`: total and per-day working minutes of one
week table; `(0, [])` when `WeekDetail` is not a list. -/
def extractWeekdetailMinutes (weekObj : JVal) : Int × List Int :=
  match jget weekObj "WeekDetail" with
  | some (.jlist days) => days.foldl weekDayStep (0, [])
  | _ => (0, [])

/-- `_matches_employee`: the assignment dicts whose stripped employee id
equals the subject exactly. -/
def matchesEmployee (pattern : JVal) (employeeId : String) : List JVal :=
  match jget pattern "AssignedTo" with
  | some (.jlist assigned) =>
      assigned.filter (fun a =>
        a.isObj && (pyStrip (pyStrOrEmpty (jget a "EmployeeId")) == employeeId))
  | _ => []

/-- `_parse_date_yyyy_mm_dd(str(a.get("EffectiveDate") or ""))`. -/
def assignmentEffDate (a : JVal) : Option Date :=
  parseDateYYYYMMDD (pyStrOrEmpty (jget a "EffectiveDate"))

/-- `_parse_timestamp(str(a.get("TimeStamp") or ""))`. -/
def assignmentTimeStamp (a : JVal) : Option DateTime :=
  parseTimeStamp (pyStrOrEmpty (jget a "TimeStamp"))

/-- Fallback date `datetime.date(1900, 1, 1)` used for unparsable
effective dates. -/
def sentinelDate : Date := ⟨1900, 1, 1⟩

/-- Fallback timestamp `datetime.datetime(1900, 1, 1, 0, 0, 0)`. -/
def sentinelDateTime : DateTime := ⟨1900, 1, 1, 0, 0, 0⟩

/-- A ranking tuple `(bucket, effective date, timestamp)` as compared by
Python tuple comparison. -/
structure RankKey where
  bucket : Nat
  eff : Date
  ts : DateTime
deriving DecidableEq, Repr

/-- Lexicographic packaging of a ranking tuple, defining its order. -/
def RankKey.lex (k : RankKey) : Nat ×ₗ Date ×ₗ DateTime :=
  toLex (k.bucket, toLex (k.eff, k.ts))

instance : LinearOrder RankKey :=
  LinearOrder.lift' RankKey.lex (by
    rintro ⟨a1, a2, a3⟩ ⟨b1, b2, b3⟩ h
    simp only [RankKey.lex, toLex_inj, Prod.mk.injEq] at h
    obtain ⟨g1, g2, g3⟩ := h
    simp_all)

/-- Scoring tuple of `_pick_best_assignment` (lines 172-184): bucket 1
exactly for a parsed effective date on or before a known `as_of`, with the
1900-01-01 sentinels standing in for unparsable fields. -/
def assignScore (a : JVal) (asOf : Option Date) : RankKey :=
  let eff := assignmentEffDate a
  let effKey := eff.getD sentinelDate
  let tsKey := (assignmentTimeStamp a).getD sentinelDateTime
  let bucket : Nat :=
    match asOf, eff with
    | some d, some e => if e ≤ d then 1 else 0
    | _, _ => 0
  ⟨bucket, effKey, tsKey⟩

/-- Scoring tuple of the pattern-level ranking (lines 238-249): same
fields, buckets 2/1 instead of 1/0. -/
def patternScore (bestAssignment : JVal) (asOf : Option Date) : RankKey :=
  let eff := assignmentEffDate bestAssignment
  let effKey := eff.getD sentinelDate
  let tsKey := (assignmentTimeStamp bestAssignment).getD sentinelDateTime
  let bucket : Nat :=
    match asOf, eff with
    | some d, some e => if e ≤ d then 2 else 1
    | _, _ => 1
  ⟨bucket, effKey, tsKey⟩

/-- Insert into a descending-sorted list, before the first element whose
key is `≤` the new element's key.  Together with `sortDescBy` this is
Python's stable `sort(key=..., reverse=True)`: descending keys, equal keys
kept in input order. -/
def sortIns {α β : Type} [LinearOrder β] (key : α → β) (x : α) : List α → List α
  | [] => [x]
  | y :: ys => if key y ≤ key x then x :: y :: ys else y :: sortIns key x ys

/-- Stable descending sort by key (`list.sort(key=..., reverse=True)`). -/
def sortDescBy {α β : Type} [LinearOrder β] (key : α → β) (l : List α) : List α :=
  l.foldr (sortIns key) []

/-- `_pick_best_assignment`: score every assignment, sort descending,
return the first, `none` for an empty input. -/
def pickBestAssignment (assignments : List JVal) (asOf : Option Date) : Option JVal :=
  match assignments with
  | [] => none
  | _ =>
      let scored := assignments.map (fun a => (assignScore a asOf, a))
      ((sortDescBy (fun x => x.1) scored).head?).map (fun x => x.2)

/-- The allow-list guard of the resolver loop (line 227): a definition is
dropped exactly when the filter is active, its identifier parses as an
integer, and that integer is not in the allow-list. -/
def excludedByFilter (filterIds : Option (List Int)) (item : JVal) : Bool :=
  match filterIds, pyIntOfJVal (jget item "WorkPatternId") with
  | some ids, some n => !ids.contains n
  | _, _ => false

/-- One iteration of the resolver's candidate loop (lines 217-250):
skip non-dicts, apply the allow-list guard, match assignments, pick the
best one, and score the pair. -/
def candidateOfItem (employeeId : String) (asOf : Option Date)
    (filterIds : Option (List Int)) (item : JVal) : Option (RankKey × JVal × JVal) :=
  if !item.isObj then none
  else if excludedByFilter filterIds item then none
  else
    match matchesEmployee item employeeId with
    | [] => none
    | ms =>
        match pickBestAssignment ms asOf with
        | none => none
        | some best => some (patternScore best asOf, item, best)

/-- The surviving `(score, definition, assignment)` candidates, in input
order. -/
def patternCandidates (results : List JVal) (employeeId : String) (asOf : Option Date)
    (filterIds : Option (List Int)) : List (RankKey × JVal × JVal) :=
  results.filterMap (candidateOfItem employeeId asOf filterIds)

/-- Keep the first occurrence of every integer (the membership semantics
of the Python `set` built by the filter parser). -/
def dedupKeepFirstAux (seen : List Int) : List Int → List Int
  | [] => []
  | x :: xs =>
      if seen.contains x then dedupKeepFirstAux seen xs
      else x :: dedupKeepFirstAux (x :: seen) xs

/-- Parsing of `PEOPLEHR_WORKPATTERN_ID_FILTER` (lines 202-214): strip the
raw value, split on commas, strip each token, drop empty or non-integer
tokens, and activate the filter only when at least one id survives. -/
def parseFilterIds (envRaw : String) : Option (List Int) :=
  match pyStripChars envRaw.data with
  | [] => none
  | raw =>
      let ids := dedupKeepFirstAux []
        ((splitOnChar ',' raw).filterMap (fun part =>
          match pyStripChars part with
          | [] => none
          | p => pyIntOfChars p))
      if ids.isEmpty then none else some ids

/-- Error outcomes of `_resolve_weekly_hours_from_workpattern_body`, in
the source three `ValueError`s with distinct messages; the specification
names them `InvalidInputError`, `NoCandidateError` and
`MissingScheduleDataError`. -/
inductive ResolveErr : Type where
  | invalidInput : ResolveErr
  | noCandidate : ResolveErr
  | missingScheduleData : ResolveErr
deriving DecidableEq, Repr

/-- The result dictionary of a successful resolution.  The float field
`weekly_hours = round(weekly_minutes / 60.0, 2)` is IEEE-754 arithmetic
and is not modelled. -/
structure Resolved where
  weeklyMinutes : Int
  perDayMinutes : List Int
  selectedWorkPatternId : Option JVal
  selectedWorkPatternName : Option JVal
  selectedEffectiveDate : Option JVal
  selectedTimeStamp : Option JVal
  debugResultCount : Nat
  debugCandidateCount : Nat
  debugFilterIdsActive : Option (List Int)

/-- The well-formedness gate of the resolver (lines 191-197): the parsed
body must be a JSON object whose `Result` field is a non-empty list. -/
def getResultsList (parsed : Option JVal) : Option (List JVal) :=
  match parsed with
  | some (.jobj fs) =>
      match List.lookup "Result" fs with
      | some (.jlist l) => if l.isEmpty then none else some l
      | _ => none
  | _ => none

/-- Loop body of the week aggregation (lines 265-269): add each week
table's total, and let a non-empty per-day list overwrite the previous
one. -/
def aggregateStep (acc : Int × List Int) (w : JVal) : Int × List Int :=
  let t := extractWeekdetailMinutes w
  (acc.1 + t.1, if t.2.isEmpty then acc.2 else t.2)

/-- The week aggregation loop of lines 262-269. -/
def aggregateWeeks (weeks : List JVal) : Int × List Int :=
  weeks.foldl aggregateStep (0, [])

/-- `_resolve_weekly_hours_from_workpattern_body`.  `parsed` is the result
of `_try_parse_json` on the body text (`none` for unparsable text),
`envFilterRaw` the value of the `PEOPLEHR_WORKPATTERN_ID_FILTER`
environment variable which the source reads inside this function (line
202), defaulted to the empty string when unset. -/
def resolveWeeklyHoursFromWorkpatternBody (parsed : Option JVal) (employeeId : String)
    (asOfDate : Option String) (envFilterRaw : String) : Except ResolveErr Resolved :=
  match getResultsList parsed with
  | none => .error .invalidInput
  | some results =>
      let asOf := parseDateYYYYMMDD (asOfDate.getD "")
      let filterIds := parseFilterIds envFilterRaw
      let candidates := patternCandidates results employeeId asOf filterIds
      match sortDescBy (fun x => x.1) candidates with
      | [] => .error .noCandidate
      | (_, chosenPattern, chosenAssignment) :: _ =>
          let weeks := normaliseWeekList chosenPattern
          if weeks.isEmpty then .error .missingScheduleData
          else
            let agg := aggregateWeeks weeks
            .ok
              { weeklyMinutes := agg.1
                perDayMinutes := agg.2
                selectedWorkPatternId := jget chosenPattern "WorkPatternId"
                selectedWorkPatternName := jget chosenPattern "WorkPatternName"
                selectedEffectiveDate := jget chosenAssignment "EffectiveDate"
                selectedTimeStamp := jget chosenAssignment "TimeStamp"
                debugResultCount := results.length
                debugCandidateCount := candidates.length
                debugFilterIdsActive := filterIds }

/-- The definition selected by the resolver, when one is selected: the
pattern component of the head of the descending-sorted candidate list. -/
def winningPattern (parsed : Option JVal) (employeeId : String)
    (asOfDate : Option String) (envFilterRaw : String) : Option JVal :=
  match getResultsList parsed with
  | none => none
  | some results =>
      let asOf := parseDateYYYYMMDD (asOfDate.getD "")
      let candidates := patternCandidates results employeeId asOf (parseFilterIds envFilterRaw)
      ((sortDescBy (fun x => x.1) candidates).head?).map (fun c => c.2.1)

/-- Per-day minutes of one week table, as a direct selection: the
working-minutes value of every dict entry of `WeekDetail`. -/
def dayMinutesList (weekObj : JVal) : List Int :=
  match jget weekObj "WeekDetail" with
  | some (.jlist days) =>
      days.filterMap (fun day =>
        if day.isObj then some (minutesOfField (jget day "TotalWorkingMins")) else none)
  | _ => []

/-- Assignment effective on 2024-01-01, i.e. before the reference date
2024-06-01 used in the witnesses. -/
def wBeforeA : JVal :=
  .jobj [("EmployeeId", .jstr "1"), ("EffectiveDate", .jstr "2024-01-01"),
    ("TimeStamp", .jstr "2024-01-01 00:00:00")]

/-- Assignment effective on 2024-12-01, i.e. after the reference date
2024-06-01 used in the witnesses. -/
def wAfterA : JVal :=
  .jobj [("EmployeeId", .jstr "1"), ("EffectiveDate", .jstr "2024-12-01"),
    ("TimeStamp", .jstr "2024-02-01 00:00:00")]

/-- Assignment whose effective date does not parse. -/
def aUnparsableEff : JVal :=
  .jobj [("EmployeeId", .jstr "1"), ("EffectiveDate", .jstr "not-a-date"),
    ("TimeStamp", .jstr "2024-01-01 00:00:00")]

/-- Assignment with the parseable pre-sentinel effective date 1850-01-01. -/
def aOldEff : JVal :=
  .jobj [("EmployeeId", .jstr "1"), ("EffectiveDate", .jstr "1850-01-01"),
    ("TimeStamp", .jstr "2024-01-01 00:00:00")]

/-- Definition with numeric identifier 5 and one matching assignment. -/
def defFive : JVal :=
  .jobj [("WorkPatternId", .jint 5), ("WorkPatternName", .jstr "A"),
    ("AssignedTo", .jlist [.jobj [("EmployeeId", .jstr "1"),
      ("EffectiveDate", .jstr "2024-01-01"), ("TimeStamp", .jstr "2024-01-01 00:00:00")]]),
    ("Week", .jobj [("WeekDetail", .jlist [.jobj [("TotalWorkingMins", .jint 60)]])])]

/-- Definition whose identifier `"x"` does not parse as an integer. -/
def defUnparsableId : JVal :=
  .jobj [("WorkPatternId", .jstr "x"), ("WorkPatternName", .jstr "B"),
    ("AssignedTo", .jlist [.jobj [("EmployeeId", .jstr "1"),
      ("EffectiveDate", .jstr "2024-02-01"), ("TimeStamp", .jstr "2024-02-01 00:00:00")]]),
    ("Week", .jobj [("WeekDetail", .jlist [.jobj [("TotalWorkingMins", .jint 30)]])])]

/-- Definition with numeric identifier 9 and one matching assignment. -/
def defNine : JVal :=
  .jobj [("WorkPatternId", .jint 9), ("WorkPatternName", .jstr "C"),
    ("AssignedTo", .jlist [.jobj [("EmployeeId", .jstr "1"),
      ("EffectiveDate", .jstr "2024-03-01"), ("TimeStamp", .jstr "2024-03-01 00:00:00")]]),
    ("Week", .jobj [("WeekDetail", .jlist [.jobj [("TotalWorkingMins", .jint 90)]])])]

/-- Document with one definition holding week tables `[60, 120]` and
`[30, 30, 30]`. -/
def docAgg : JVal :=
  .jobj [("Result", .jlist [
    .jobj [("WorkPatternId", .jint 5), ("WorkPatternName", .jstr "A"),
      ("AssignedTo", .jlist [.jobj [("EmployeeId", .jstr "1"),
        ("EffectiveDate", .jstr "2024-01-01"), ("TimeStamp", .jstr "2024-01-01 00:00:00")]]),
      ("Week", .jlist [
        .jobj [("WeekDetail", .jlist [.jobj [("TotalWorkingMins", .jint 60)],
          .jobj [("TotalWorkingMins", .jint 120)]])],
        .jobj [("WeekDetail", .jlist [.jobj [("TotalWorkingMins", .jint 30)],
          .jobj [("TotalWorkingMins", .jint 30)], .jobj [("TotalWorkingMins", .jint 30)]])]])]])]

/-- Expected resolution result for `docAgg`. -/
def resolvedAgg : Resolved :=
  { weeklyMinutes := 270
    perDayMinutes := [30, 30, 30]
    selectedWorkPatternId := some (.jint 5)
    selectedWorkPatternName := some (.jstr "A")
    selectedEffectiveDate := some (.jstr "2024-01-01")
    selectedTimeStamp := some (.jstr "2024-01-01 00:00:00")
    debugResultCount := 1
    debugCandidateCount := 1
    debugFilterIdsActive := none }

/-- Week table whose `WeekDetail` is the empty list. -/
def weekNoDays : JVal := .jobj [("WeekDetail", .jlist [])]

/-- Definition whose only week table has no day entries. -/
def defEmptyWeeks : JVal :=
  .jobj [("WorkPatternId", .jint 7),
    ("AssignedTo", .jlist [.jobj [("EmployeeId", .jstr "1")]]),
    ("Week", .jlist [weekNoDays])]

/-- Document wrapping `defEmptyWeeks`. -/
def docEmptyWeeks : JVal := .jobj [("Result", .jlist [defEmptyWeeks])]

/-- Document with two definitions, ids 5 (60 weekly minutes) and 9
(90 weekly minutes), both assigned to subject 1. -/
def docTwoDefs : JVal := .jobj [("Result", .jlist [defFive, defNine])]

example : parseDateYYYYMMDD " 2024-02-29 " = some ⟨2024, 2, 29⟩ := by decide
example : parseDateYYYYMMDD "2023-02-29" = none := by decide
example : parseDateYYYYMMDD "1850-01-01" = some ⟨1850, 1, 1⟩ := by decide
example : parseDateYYYYMMDD "0000-01-01" = none := by decide
example : parseDateYYYYMMDD "24-01-01" = none := by decide
example : parseTimeStamp "2024-01-05 10:20:30" = some ⟨2024, 1, 5, 10, 20, 30⟩ := by decide
example : parseTimeStamp "2024-01-05T10:20:30" = some ⟨2024, 1, 5, 10, 20, 30⟩ := by decide
example : parseTimeStamp "2024-01-05 10:20:60" = none := by decide
example : parseTimeStamp "2024-01-05" = none := by decide
example : pyIntOfChars " 42 ".data = some 42 := by decide
example : pyIntOfChars "4x".data = none := by decide
example : pyFloatTruncOfChars "-3.7".data = some (-3) := by decide
example : pyFloatTruncOfChars ".5".data = some 0 := by decide
example : pyFloatTruncOfChars "abc".data = none := by decide

theorem Date.lt_components_iff (a b : Date) :
    a < b ↔ a.year < b.year ∨ (a.year = b.year ∧
      (a.month < b.month ∨ (a.month = b.month ∧ a.day < b.day))) := by
  show Date.lex a < Date.lex b ↔ _
  simp only [Date.lex, Prod.Lex.lt_iff]

theorem RankKey.lt_bucket_first_iff (a b : RankKey) :
    a < b ↔ a.bucket < b.bucket ∨ (a.bucket = b.bucket ∧
      (a.eff < b.eff ∨ (a.eff = b.eff ∧ a.ts < b.ts))) := by
  show RankKey.lex a < RankKey.lex b ↔ _
  simp only [RankKey.lex, Prod.Lex.lt_iff]

theorem sortIns_ne_nil {α β : Type} [LinearOrder β] (key : α → β) (x : α) (l : List α) :
    sortIns key x l ≠ [] := by
  cases l with
  | nil => simp [sortIns]
  | cons y ys =>
      simp only [sortIns]
      split <;> simp

theorem sortDescBy_cons {α β : Type} [LinearOrder β] (key : α → β) (x : α) (xs : List α) :
    sortDescBy key (x :: xs) = sortIns key x (sortDescBy key xs) := rfl

theorem sortDescBy_eq_nil_iff {α β : Type} [LinearOrder β] (key : α → β) (l : List α) :
    sortDescBy key l = [] ↔ l = [] := by
  cases l with
  | nil => simp [sortDescBy]
  | cons x xs =>
      rw [sortDescBy_cons]
      constructor
      · intro h
        exact absurd h (sortIns_ne_nil key x _)
      · intro h
        cases h

theorem sortIns_head {α β : Type} [LinearOrder β] (key : α → β) (x y : α) (ys : List α) :
    (sortIns key x (y :: ys)).head? = some (if key y ≤ key x then x else y) := by
  simp only [sortIns]
  split <;> simp

/-- The head of the stable descending sort is the first input element of
maximal key: everything before it in input order has a strictly smaller
key, everything after it a key that is at most as large. -/
theorem sortDescBy_head_spec {α β : Type} [LinearOrder β] (key : α → β) (l : List α)
    (h : l ≠ []) :
    ∃ b l₁ l₂, (sortDescBy key l).head? = some b ∧ l = l₁ ++ b :: l₂ ∧
      (∀ y ∈ l₁, key y < key b) ∧ (∀ y ∈ l₂, key y ≤ key b) := by
  induction l with
  | nil => exact absurd rfl h
  | cons x xs ih =>
      by_cases hxs : xs = []
      · subst hxs
        exact ⟨x, [], [], by simp [sortDescBy, sortIns], by simp, by simp, by simp⟩
      · obtain ⟨b, m₁, m₂, hh, hdec, h₁, h₂⟩ := ih hxs
        cases hsort : sortDescBy key xs with
        | nil => exact absurd ((sortDescBy_eq_nil_iff key xs).mp hsort) hxs
        | cons b0 rest =>
            rw [hsort] at hh
            have hb0 : b0 = b := by simpa using hh
            subst hb0
            by_cases hle : key b0 ≤ key x
            · refine ⟨x, [], xs, ?_, by simp, by simp, ?_⟩
              · rw [sortDescBy_cons, hsort, sortIns_head]
                simp [hle]
              · intro y hy
                rw [hdec] at hy
                rcases List.mem_append.mp hy with hy1 | hy2
                · exact le_trans (le_of_lt (h₁ y hy1)) hle
                · rcases List.mem_cons.mp hy2 with rfl | hy3
                  · exact hle
                  · exact le_trans (h₂ y hy3) hle
            · have hlt : key x < key b0 := not_le.mp hle
              refine ⟨b0, x :: m₁, m₂, ?_, by rw [hdec]; rfl, ?_, h₂⟩
              · rw [sortDescBy_cons, hsort, sortIns_head]
                simp [hle]
              · intro y hy
                rcases List.mem_cons.mp hy with rfl | hy1
                · exact hlt
                · exact h₁ y hy1

/-- `_pick_best_assignment` on a non-empty list returns the first input
assignment of maximal score. -/
theorem pickBestAssignment_decomposition (assignments : List JVal) (asOf : Option Date)
    (h : assignments ≠ []) :
    ∃ b l₁ l₂, pickBestAssignment assignments asOf = some b ∧
      assignments = l₁ ++ b :: l₂ ∧
      (∀ a ∈ l₁, assignScore a asOf < assignScore b asOf) ∧
      (∀ a ∈ l₂, assignScore a asOf ≤ assignScore b asOf) := by
  cases hl : assignments with
  | nil => exact absurd hl h
  | cons x xs =>
      have hscored : (x :: xs).map (fun a => (assignScore a asOf, a)) ≠ [] := by simp
      obtain ⟨p, s₁, s₂, hh, hdec, h₁, h₂⟩ :=
        sortDescBy_head_spec (fun q => q.1) ((x :: xs).map (fun a => (assignScore a asOf, a)))
          hscored
      have hmem : ∀ q ∈ (x :: xs).map (fun a => (assignScore a asOf, a)),
          q.1 = assignScore q.2 asOf := by
        intro q hq
        rcases List.mem_map.mp hq with ⟨a, _, rfl⟩
        rfl
      have hp : p ∈ (x :: xs).map (fun a => (assignScore a asOf, a)) := by
        rw [hdec]
        exact List.mem_append.mpr (Or.inr (List.mem_cons_self _ _))
      have hpk : p.1 = assignScore p.2 asOf := hmem p hp
      refine ⟨p.2, s₁.map Prod.snd, s₂.map Prod.snd, ?_, ?_, ?_, ?_⟩
      · show pickBestAssignment (x :: xs) asOf = some p.2
        simp only [pickBestAssignment]
        rw [hh]
        rfl
      · have : ((x :: xs).map (fun a => (assignScore a asOf, a))).map Prod.snd = x :: xs := by
          have hcomp : (Prod.snd ∘ fun a : JVal => (assignScore a asOf, a)) = id := rfl
          rw [List.map_map, hcomp, List.map_id]
        calc x :: xs = ((x :: xs).map (fun a => (assignScore a asOf, a))).map Prod.snd :=
              this.symm
          _ = (s₁ ++ p :: s₂).map Prod.snd := by rw [hdec]
          _ = s₁.map Prod.snd ++ p.2 :: s₂.map Prod.snd := by simp
      · intro a ha
        rcases List.mem_map.mp ha with ⟨q, hq, rfl⟩
        have hqs : q ∈ (x :: xs).map (fun a => (assignScore a asOf, a)) := by
          rw [hdec]
          exact List.mem_append.mpr (Or.inl hq)
        have := h₁ q hq
        rw [hmem q hqs, hpk] at this
        exact this
      · intro a ha
        rcases List.mem_map.mp ha with ⟨q, hq, rfl⟩
        have hqs : q ∈ (x :: xs).map (fun a => (assignScore a asOf, a)) := by
          rw [hdec]
          exact List.mem_append.mpr (Or.inr (List.mem_cons_of_mem _ hq))
        have := h₂ q hq
        rw [hmem q hqs, hpk] at this
        exact this

/-- Bucket characterisation of the assignment-level score. -/
theorem assignScore_bucket_iff (a : JVal) (asOf : Option Date) :
    ((assignScore a asOf).bucket = 1 ↔
      ∃ d e, asOf = some d ∧ assignmentEffDate a = some e ∧ e ≤ d) ∧
    ((assignScore a asOf).bucket = 0 ↔
      ¬ ∃ d e, asOf = some d ∧ assignmentEffDate a = some e ∧ e ≤ d) := by
  cases hd : asOf with
  | none => simp [assignScore, hd]
  | some d =>
      cases he : assignmentEffDate a with
      | none => simp [assignScore, hd, he]
      | some e =>
          by_cases hle : e ≤ d <;> simp [assignScore, hd, he, hle]

/-- Bucket characterisation of the pattern-level score. -/
theorem patternScore_bucket_iff (a : JVal) (asOf : Option Date) :
    ((patternScore a asOf).bucket = 2 ↔
      ∃ d e, asOf = some d ∧ assignmentEffDate a = some e ∧ e ≤ d) ∧
    ((patternScore a asOf).bucket = 1 ↔
      ¬ ∃ d e, asOf = some d ∧ assignmentEffDate a = some e ∧ e ≤ d) := by
  cases hd : asOf with
  | none => simp [patternScore, hd]
  | some d =>
      cases he : assignmentEffDate a with
      | none => simp [patternScore, hd, he]
      | some e =>
          by_cases hle : e ≤ d <;> simp [patternScore, hd, he, hle]

theorem foldl_weekDayStep (days : List JVal) : ∀ t p,
    days.foldl weekDayStep (t, p) =
      (t + (days.filterMap (fun day =>
          if day.isObj then some (minutesOfField (jget day "TotalWorkingMins")) else none)).sum,
        p ++ days.filterMap (fun day =>
          if day.isObj then some (minutesOfField (jget day "TotalWorkingMins")) else none)) := by
  induction days with
  | nil => simp
  | cons day rest ih =>
      intro t p
      by_cases hobj : day.isObj
      · simp only [List.foldl_cons, weekDayStep, hobj, if_true, List.filterMap_cons, ih,
          List.sum_cons]
        simp [add_assoc]
      · simp only [List.foldl_cons, weekDayStep, hobj, if_false, List.filterMap_cons, ih]
        simp [hobj]

theorem extractWeekdetailMinutes_eq (w : JVal) :
    extractWeekdetailMinutes w = ((dayMinutesList w).sum, dayMinutesList w) := by
  cases hget : jget w "WeekDetail" with
  | none => simp [extractWeekdetailMinutes, dayMinutesList, hget]
  | some v =>
      cases v <;> simp [extractWeekdetailMinutes, dayMinutesList, hget, foldl_weekDayStep]

theorem foldl_aggregateStep (weeks : List JVal) : ∀ t p,
    weeks.foldl aggregateStep (t, p) =
      (t + (weeks.map (fun w => (dayMinutesList w).sum)).sum,
        ((weeks.map dayMinutesList).filter (fun l => !l.isEmpty)).getLastD p) := by
  induction weeks with
  | nil => simp
  | cons w rest ih =>
      intro t p
      rw [List.foldl_cons]
      have hstep : aggregateStep (t, p) w =
          (t + (dayMinutesList w).sum,
            if (dayMinutesList w).isEmpty then p else dayMinutesList w) := by
        simp [aggregateStep, extractWeekdetailMinutes_eq]
      rw [hstep, List.map_cons, List.map_cons, List.sum_cons, List.filter_cons]
      by_cases hemp : (dayMinutesList w).isEmpty
      · rw [if_pos hemp, ih]
        have hb : (!(dayMinutesList w).isEmpty) = false := by simp [hemp]
        rw [hb]
        simp only [Bool.false_eq_true, if_false, add_assoc]
      · rw [if_neg hemp, ih]
        have hb : (!(dayMinutesList w).isEmpty) = true := by simp [hemp]
        rw [hb]
        simp only [if_true, List.getLastD_cons, add_assoc]

theorem aggregateWeeks_eq (weeks : List JVal) :
    aggregateWeeks weeks =
      ((weeks.map (fun w => (dayMinutesList w).sum)).sum,
        ((weeks.map dayMinutesList).filter (fun l => !l.isEmpty)).getLastD []) := by
  unfold aggregateWeeks
  rw [foldl_aggregateStep]
  simp

theorem candidateOfItem_eq_some {employeeId : String} {asOf : Option Date}
    {filterIds : Option (List Int)} {item : JVal} {c : RankKey × JVal × JVal}
    (h : candidateOfItem employeeId asOf filterIds item = some c) :
    c.1 = patternScore c.2.2 asOf ∧ c.2.1 = item := by
  unfold candidateOfItem at h
  split at h
  · simp at h
  · split at h
    · simp at h
    · split at h
      · simp at h
      · split at h
        · simp at h
        · obtain rfl := Option.some.inj h
          exact ⟨rfl, rfl⟩

/-- Claim C1: on a non-empty assignment list `_pick_best_assignment`
returns the candidate with the lexicographically greatest
`(bucket, effective date, timestamp)` key, where bucket 1 means a parsed
effective date on or before a known reference date; every earlier
candidate has a strictly smaller key (so ties go to the earliest input
position); the empty list gives `none`; and with one assignment effective
on/before and one strictly after the reference date, the on/before one is
selected in either input order. -/
theorem pickBestAssignment_ranks_lexicographically (assignments : List JVal)
    (asOf : Option Date) :
    (pickBestAssignment [] asOf = none) ∧
    (assignments ≠ [] →
      ∃ b l₁ l₂, pickBestAssignment assignments asOf = some b ∧
        assignments = l₁ ++ b :: l₂ ∧
        (∀ a ∈ l₁, assignScore a asOf < assignScore b asOf) ∧
        (∀ a ∈ l₂, assignScore a asOf ≤ assignScore b asOf)) ∧
    (∀ a, ((assignScore a asOf).bucket = 1 ↔
        ∃ d e, asOf = some d ∧ assignmentEffDate a = some e ∧ e ≤ d) ∧
      ((assignScore a asOf).bucket = 0 ↔
        ¬ ∃ d e, asOf = some d ∧ assignmentEffDate a = some e ∧ e ≤ d)) ∧
    (∀ a₁ a₂ d e₁ e₂, asOf = some d →
      assignmentEffDate a₁ = some e₁ → e₁ ≤ d →
      assignmentEffDate a₂ = some e₂ → d < e₂ →
      pickBestAssignment [a₁, a₂] asOf = some a₁ ∧
      pickBestAssignment [a₂, a₁] asOf = some a₁) := by
  refine ⟨rfl, pickBestAssignment_decomposition assignments asOf,
    fun a => assignScore_bucket_iff a asOf, ?_⟩
  intro a₁ a₂ d e₁ e₂ hd he₁ hle₁ he₂ hlt₂
  have hb₁ : (assignScore a₁ asOf).bucket = 1 := by
    simp [assignScore, hd, he₁, hle₁]
  have hb₂ : (assignScore a₂ asOf).bucket = 0 := by
    simp [assignScore, hd, he₂, not_le.mpr hlt₂]
  have hlt : assignScore a₂ asOf < assignScore a₁ asOf :=
    (RankKey.lt_bucket_first_iff _ _).mpr (Or.inl (by rw [hb₁, hb₂]; exact Nat.zero_lt_one))
  constructor
  · simp [pickBestAssignment, sortDescBy, sortIns, hlt.le]
  · simp [pickBestAssignment, sortDescBy, sortIns, hlt.not_le]

/-- Witness for C1: with reference date 2024-06-01, the assignment
effective 2024-01-01 beats the one effective 2024-12-01 in both input
orders. -/
theorem pickBestAssignment_ranks_lexicographically_w :
    pickBestAssignment [wBeforeA, wAfterA] (some ⟨2024, 6, 1⟩) = some wBeforeA ∧
    pickBestAssignment [wAfterA, wBeforeA] (some ⟨2024, 6, 1⟩) = some wBeforeA :=
  (pickBestAssignment_ranks_lexicographically [] (some ⟨2024, 6, 1⟩)).2.2.2
    wBeforeA wAfterA ⟨2024, 6, 1⟩ ⟨2024, 1, 1⟩ ⟨2024, 12, 1⟩ rfl (by decide) (by decide)
    (by decide) (by decide)

/-- Claim C9: on a non-empty list `_pick_best_assignment` returns `some`
element of its input. -/
theorem pickBestAssignment_returns_member (assignments : List JVal) (asOf : Option Date)
    (h : assignments ≠ []) :
    ∃ a, pickBestAssignment assignments asOf = some a ∧ a ∈ assignments := by
  obtain ⟨b, l₁, l₂, hpick, hdec, -, -⟩ := pickBestAssignment_decomposition assignments asOf h
  refine ⟨b, hpick, ?_⟩
  rw [hdec]
  exact List.mem_append.mpr (Or.inr (List.mem_cons_self _ _))

/-- Witness for C9 on a concrete two-element list. -/
theorem pickBestAssignment_returns_member_w :
    (([wBeforeA, wAfterA] : List JVal) ≠ []) ∧
    ∃ a, pickBestAssignment [wBeforeA, wAfterA] none = some a ∧ a ∈ [wBeforeA, wAfterA] :=
  ⟨by simp, pickBestAssignment_returns_member [wBeforeA, wAfterA] none (by simp)⟩

/-- Counterexample to C7: the sentinel 1900-01-01 is not a minimum.  An
assignment with an unparsable effective date shares bucket 0 with a
parsed assignment dated 1850-01-01 but strictly outranks it on the date
component, and `_pick_best_assignment` selects the unparsable one. -/
theorem unparsable_date_outranks_parsed_cx :
    assignmentEffDate aUnparsableEff = none ∧
    assignmentEffDate aOldEff = some ⟨1850, 1, 1⟩ ∧
    (assignScore aUnparsableEff none).bucket = (assignScore aOldEff none).bucket ∧
    (assignScore aOldEff none).eff < (assignScore aUnparsableEff none).eff ∧
    pickBestAssignment [aOldEff, aUnparsableEff] none = some aUnparsableEff := by
  refine ⟨by decide, by decide, by decide, by decide, ?_⟩
  rfl

/-- Claim C7 amended: an unparsable effective date yields bucket 0 and the
fixed sentinel date 1900-01-01 (an unparsable timestamp the sentinel
1900-01-01 00:00:00), so on the date component it never outranks an
assignment whose parsed effective date is on or after 1900-01-01. -/
theorem unparsable_date_sentinel_spec (a b : JVal) (asOf : Option Date) :
    (assignmentEffDate a = none →
      (assignScore a asOf).bucket = 0 ∧
      (assignScore a asOf).eff = sentinelDate ∧
      (∀ e, assignmentEffDate b = some e → sentinelDate ≤ e →
        (assignScore a asOf).eff ≤ (assignScore b asOf).eff)) ∧
    (assignmentTimeStamp a = none → (assignScore a asOf).ts = sentinelDateTime) := by
  constructor
  · intro ha
    refine ⟨?_, ?_, ?_⟩
    · cases asOf <;> simp [assignScore, ha]
    · cases asOf <;> simp [assignScore, ha]
    · intro e hb hse
      have h1 : (assignScore a asOf).eff = sentinelDate := by
        cases asOf <;> simp [assignScore, ha]
      have h2 : (assignScore b asOf).eff = e := by
        cases asOf <;> simp [assignScore, hb]
      rw [h1, h2]
      exact hse
  · intro ha
    cases asOf <;> simp [assignScore, ha]

/-- Witness for the amended C7 at concrete assignments. -/
theorem unparsable_date_sentinel_spec_w :
    assignmentEffDate aUnparsableEff = none ∧
    (assignScore aUnparsableEff none).bucket = 0 ∧
    (assignScore aUnparsableEff none).eff = sentinelDate ∧
    (assignScore aUnparsableEff none).eff ≤ (assignScore wBeforeA none).eff := by
  have h := (unparsable_date_sentinel_spec aUnparsableEff wBeforeA none).1 (by decide)
  exact ⟨by decide, h.1, h.2.1, h.2.2 ⟨2024, 1, 1⟩ (by decide) (by decide)⟩

/-- Claim C4: with an active allow-list a definition is excluded iff its
identifier parses to an integer absent from the list; an unparsable
identifier is never excluded.  With allow-list `[5, 7]`, definitions 5 and
`"x"` survive as candidates while definition 9 is excluded. -/
theorem allow_list_filter_spec (ids : List Int) (item : JVal) :
    (excludedByFilter (some ids) item = true ↔
      ∃ n, pyIntOfJVal (jget item "WorkPatternId") = some n ∧ n ∉ ids) ∧
    (pyIntOfJVal (jget item "WorkPatternId") = none →
      excludedByFilter (some ids) item = false) ∧
    ((patternCandidates [defFive, defUnparsableId, defNine] "1" none (some [5, 7])).map
      (fun c => c.2.1) = [defFive, defUnparsableId]) := by
  refine ⟨?_, ?_, ?_⟩
  · cases hn : pyIntOfJVal (jget item "WorkPatternId") with
    | none => simp [excludedByFilter, hn]
    | some n =>
        by_cases hmem : n ∈ ids
        · simp [excludedByFilter, hn, hmem]
        · simp [excludedByFilter, hn, hmem]
  · intro hn
    simp [excludedByFilter, hn]
  · rfl

/-- Witness for C4: definition 9 is excluded by allow-list `[5, 7]` and
definition `"x"` is not. -/
theorem allow_list_filter_spec_w :
    excludedByFilter (some [5, 7]) defNine = true ∧
    excludedByFilter (some [5, 7]) defUnparsableId = false :=
  ⟨(allow_list_filter_spec [5, 7] defNine).1.mpr ⟨9, by decide, by decide⟩,
    (allow_list_filter_spec [5, 7] defUnparsableId).2.1 (by decide)⟩

/-- Claim C2: among the surviving `(definition, best assignment)` pairs the
pattern-level ranking selects the pair with the lexicographically greatest
key `(bucket2, effective date, timestamp)` computed from the chosen
assignment's own fields; every earlier surviving pair has a strictly
smaller key (ties go to the first survivor in input order); and bucket2 is
2 exactly when the reference date is known, the effective date parsed, and
is on or before it, and 1 in every other case. -/
theorem pattern_ranker_spec (results : List JVal) (employeeId : String) (asOf : Option Date)
    (filterIds : Option (List Int))
    (h : patternCandidates results employeeId asOf filterIds ≠ []) :
    ∃ c l₁ l₂,
      (sortDescBy (fun x => x.1)
        (patternCandidates results employeeId asOf filterIds)).head? = some c ∧
      patternCandidates results employeeId asOf filterIds = l₁ ++ c :: l₂ ∧
      (∀ y ∈ l₁, y.1 < c.1) ∧ (∀ y ∈ l₂, y.1 ≤ c.1) ∧
      (∀ y ∈ patternCandidates results employeeId asOf filterIds,
        y.1 = patternScore y.2.2 asOf ∧
        ((y.1).bucket = 2 ↔
          ∃ d e, asOf = some d ∧ assignmentEffDate y.2.2 = some e ∧ e ≤ d) ∧
        ((y.1).bucket = 1 ↔
          ¬ ∃ d e, asOf = some d ∧ assignmentEffDate y.2.2 = some e ∧ e ≤ d)) := by
  obtain ⟨c, l₁, l₂, hh, hdec, h₁, h₂⟩ :=
    sortDescBy_head_spec (fun x => x.1) (patternCandidates results employeeId asOf filterIds) h
  refine ⟨c, l₁, l₂, hh, hdec, h₁, h₂, ?_⟩
  intro y hy
  rcases List.mem_filterMap.mp hy with ⟨item, -, hitem⟩
  have hk := (candidateOfItem_eq_some hitem).1
  refine ⟨hk, ?_, ?_⟩
  · rw [hk]
    exact (patternScore_bucket_iff y.2.2 asOf).1
  · rw [hk]
    exact (patternScore_bucket_iff y.2.2 asOf).2

/-- Witness for C2 on a concrete three-definition document. -/
theorem pattern_ranker_spec_w :
    (patternCandidates [defFive, defUnparsableId, defNine] "1" none none ≠ []) ∧
    ∃ c l₁ l₂,
      (sortDescBy (fun x => x.1)
        (patternCandidates [defFive, defUnparsableId, defNine] "1" none none)).head? = some c ∧
      patternCandidates [defFive, defUnparsableId, defNine] "1" none none = l₁ ++ c :: l₂ ∧
      (∀ y ∈ l₁, y.1 < c.1) ∧ (∀ y ∈ l₂, y.1 ≤ c.1) ∧
      (∀ y ∈ patternCandidates [defFive, defUnparsableId, defNine] "1" none none,
        y.1 = patternScore y.2.2 none ∧
        ((y.1).bucket = 2 ↔
          ∃ d e, (none : Option Date) = some d ∧ assignmentEffDate y.2.2 = some e ∧ e ≤ d) ∧
        ((y.1).bucket = 1 ↔
          ¬ ∃ d e, (none : Option Date) = some d ∧ assignmentEffDate y.2.2 = some e ∧ e ≤ d)) := by
  have hne : patternCandidates [defFive, defUnparsableId, defNine] "1" none none ≠ [] := by
    intro hcontra
    have : (patternCandidates [defFive, defUnparsableId, defNine] "1" none none).length = 3 := rfl
    rw [hcontra] at this
    simp at this
  exact ⟨hne, pattern_ranker_spec [defFive, defUnparsableId, defNine] "1" none none hne⟩

theorem getResultsList_eq_none_iff (parsed : Option JVal) :
    getResultsList parsed = none ↔
      ¬ ∃ fs l, parsed = some (.jobj fs) ∧
        List.lookup "Result" fs = some (.jlist l) ∧ l ≠ [] := by
  cases parsed with
  | none => simp [getResultsList]
  | some v =>
      cases v with
      | jnull => simp [getResultsList]
      | jbool b => simp [getResultsList]
      | jint n => simp [getResultsList]
      | jstr s => simp [getResultsList]
      | jlist l => simp [getResultsList]
      | jobj fs =>
          cases hl : List.lookup "Result" fs with
          | none => simp [getResultsList, hl]
          | some w =>
              cases w with
              | jnull => simp [getResultsList, hl]
              | jbool b => simp [getResultsList, hl]
              | jint n => simp [getResultsList, hl]
              | jstr s => simp [getResultsList, hl]
              | jobj gs => simp [getResultsList, hl]
              | jlist l =>
                  by_cases hemp : l = []
                  · subst hemp
                    simp [getResultsList, hl]
                  · have hne : l.isEmpty = false := by simpa using hemp
                    simp [getResultsList, hl, hne, hemp]

theorem getResultsList_eq_some_iff (parsed : Option JVal) (results : List JVal) :
    getResultsList parsed = some results ↔
      ∃ fs, parsed = some (.jobj fs) ∧
        List.lookup "Result" fs = some (.jlist results) ∧ results ≠ [] := by
  cases parsed with
  | none => simp [getResultsList]
  | some v =>
      cases v with
      | jnull => simp [getResultsList]
      | jbool b => simp [getResultsList]
      | jint n => simp [getResultsList]
      | jstr s => simp [getResultsList]
      | jlist l => simp [getResultsList]
      | jobj fs =>
          cases hl : List.lookup "Result" fs with
          | none => simp [getResultsList, hl]
          | some w =>
              cases w with
              | jnull => simp [getResultsList, hl]
              | jbool b => simp [getResultsList, hl]
              | jint n => simp [getResultsList, hl]
              | jstr s => simp [getResultsList, hl]
              | jobj gs => simp [getResultsList, hl]
              | jlist l =>
                  by_cases hemp : l = []
                  · subst hemp
                    simp [getResultsList, hl]
                  · have hne : l.isEmpty = false := by simpa using hemp
                    simp only [getResultsList, hl, hne, Bool.false_eq_true, if_false,
                      Option.some.injEq, JVal.jlist.injEq]
                    constructor
                    · rintro rfl
                      exact ⟨fs, rfl, by rw [hl], hemp⟩
                    · rintro ⟨fs2, hfs, hlk, -⟩
                      obtain rfl : fs = fs2 := by injection hfs
                      rw [hl] at hlk
                      exact (JVal.jlist.injEq _ _ ▸ Option.some.inj hlk)

/-- Exhaustive control-flow characterisation of the resolver: exactly one
of the four outcomes occurs, determined by the well-formedness gate, the
candidate list, and the winning definition's normalized week data. -/
theorem resolve_eq_cases (parsed : Option JVal) (employeeId : String)
    (asOfDate : Option String) (envRaw : String) :
    (getResultsList parsed = none ∧
      resolveWeeklyHoursFromWorkpatternBody parsed employeeId asOfDate envRaw =
        .error .invalidInput ∧
      winningPattern parsed employeeId asOfDate envRaw = none) ∨
    (∃ results, getResultsList parsed = some results ∧
      patternCandidates results employeeId (parseDateYYYYMMDD (asOfDate.getD ""))
        (parseFilterIds envRaw) = [] ∧
      resolveWeeklyHoursFromWorkpatternBody parsed employeeId asOfDate envRaw =
        .error .noCandidate ∧
      winningPattern parsed employeeId asOfDate envRaw = none) ∨
    (∃ results k p a rest, getResultsList parsed = some results ∧
      sortDescBy (fun x => x.1) (patternCandidates results employeeId
        (parseDateYYYYMMDD (asOfDate.getD "")) (parseFilterIds envRaw)) = (k, p, a) :: rest ∧
      winningPattern parsed employeeId asOfDate envRaw = some p ∧
      ((normaliseWeekList p = [] ∧
        resolveWeeklyHoursFromWorkpatternBody parsed employeeId asOfDate envRaw =
          .error .missingScheduleData) ∨
        (normaliseWeekList p ≠ [] ∧
        resolveWeeklyHoursFromWorkpatternBody parsed employeeId asOfDate envRaw =
          .ok { weeklyMinutes := (aggregateWeeks (normaliseWeekList p)).1
                perDayMinutes := (aggregateWeeks (normaliseWeekList p)).2
                selectedWorkPatternId := jget p "WorkPatternId"
                selectedWorkPatternName := jget p "WorkPatternName"
                selectedEffectiveDate := jget a "EffectiveDate"
                selectedTimeStamp := jget a "TimeStamp"
                debugResultCount := results.length
                debugCandidateCount := (patternCandidates results employeeId
                  (parseDateYYYYMMDD (asOfDate.getD "")) (parseFilterIds envRaw)).length
                debugFilterIdsActive := parseFilterIds envRaw }))) := by
  cases hgr : getResultsList parsed with
  | none =>
      left
      refine ⟨rfl, ?_, ?_⟩
      · simp only [resolveWeeklyHoursFromWorkpatternBody, hgr]
      · simp only [winningPattern, hgr]
  | some results =>
      cases hs : sortDescBy (fun x => x.1) (patternCandidates results employeeId
          (parseDateYYYYMMDD (asOfDate.getD "")) (parseFilterIds envRaw)) with
      | nil =>
          right; left
          have hcand := (sortDescBy_eq_nil_iff _ _).mp hs
          refine ⟨results, rfl, hcand, ?_, ?_⟩
          · simp only [resolveWeeklyHoursFromWorkpatternBody, hgr, hs]
          · simp only [winningPattern, hgr, hs]
            rfl
      | cons c rest =>
          obtain ⟨k, p, a⟩ := c
          right; right
          refine ⟨results, k, p, a, rest, rfl, hs, ?_, ?_⟩
          · simp only [winningPattern, hgr, hs]
            rfl
          · by_cases hw : normaliseWeekList p = []
            · left
              refine ⟨hw, ?_⟩
              have hwe : (normaliseWeekList p).isEmpty = true := by simp [hw]
              simp only [resolveWeeklyHoursFromWorkpatternBody, hgr, hs, hwe, if_true]
            · right
              refine ⟨hw, ?_⟩
              have hwe : (normaliseWeekList p).isEmpty = false := by simpa using hw
              simp only [resolveWeeklyHoursFromWorkpatternBody, hgr, hs, hwe,
                Bool.false_eq_true, if_false]

/-- Claim C5: resolution fails with the invalid-input error iff the parsed
document is not an object with a non-empty `Result` list; with the
no-candidate error iff the document is well-formed but every definition is
dropped by the candidate loop; with the missing-data error iff a winner is
selected whose week data normalizes to zero tables; and it returns a
result in every other case, so field-level parse failures never abort
resolution. -/
theorem resolver_error_taxonomy (parsed : Option JVal) (employeeId : String)
    (asOfDate : Option String) (envRaw : String) :
    (resolveWeeklyHoursFromWorkpatternBody parsed employeeId asOfDate envRaw =
        .error .invalidInput ↔
      ¬ ∃ fs l, parsed = some (.jobj fs) ∧
        List.lookup "Result" fs = some (.jlist l) ∧ l ≠ []) ∧
    (resolveWeeklyHoursFromWorkpatternBody parsed employeeId asOfDate envRaw =
        .error .noCandidate ↔
      ∃ results, getResultsList parsed = some results ∧
        ∀ item ∈ results, candidateOfItem employeeId (parseDateYYYYMMDD (asOfDate.getD ""))
          (parseFilterIds envRaw) item = none) ∧
    (resolveWeeklyHoursFromWorkpatternBody parsed employeeId asOfDate envRaw =
        .error .missingScheduleData ↔
      ∃ p, winningPattern parsed employeeId asOfDate envRaw = some p ∧
        normaliseWeekList p = []) ∧
    ((∃ r, resolveWeeklyHoursFromWorkpatternBody parsed employeeId asOfDate envRaw = .ok r) ↔
      ∃ p, winningPattern parsed employeeId asOfDate envRaw = some p ∧
        normaliseWeekList p ≠ []) := by
  rcases resolve_eq_cases parsed employeeId asOfDate envRaw with
    ⟨hgr, hres, hwin⟩ |
    ⟨results, hgr, hcand, hres, hwin⟩ |
    ⟨results, k, p, a, rest, hgr, hs, hwin, hsub⟩
  · refine ⟨?_, ?_, ?_, ?_⟩
    · rw [hres]
      exact iff_of_true rfl ((getResultsList_eq_none_iff parsed).mp hgr)
    · rw [hres]
      simp [hgr]
    · rw [hres]
      simp [hwin]
    · constructor
      · rintro ⟨r, hr⟩
        rw [hres] at hr
        cases hr
      · rintro ⟨q, hq, -⟩
        rw [hwin] at hq
        cases hq
  · have hex : ∃ fs l, parsed = some (.jobj fs) ∧
        List.lookup "Result" fs = some (.jlist l) ∧ l ≠ [] := by
      obtain ⟨fs, hfs, hlk, hn⟩ := (getResultsList_eq_some_iff parsed results).mp hgr
      exact ⟨fs, results, hfs, hlk, hn⟩
    refine ⟨?_, ?_, ?_, ?_⟩
    · rw [hres]
      refine iff_of_false (by simp) ?_
      intro hni
      exact hni hex
    · rw [hres]
      exact iff_of_true rfl ⟨results, hgr, List.filterMap_eq_nil_iff.mp hcand⟩
    · rw [hres]
      simp [hwin]
    · constructor
      · rintro ⟨r, hr⟩
        rw [hres] at hr
        cases hr
      · rintro ⟨q, hq, -⟩
        rw [hwin] at hq
        cases hq
  · have hex : ∃ fs l, parsed = some (.jobj fs) ∧
        List.lookup "Result" fs = some (.jlist l) ∧ l ≠ [] := by
      obtain ⟨fs, hfs, hlk, hn⟩ := (getResultsList_eq_some_iff parsed results).mp hgr
      exact ⟨fs, results, hfs, hlk, hn⟩
    have hnall : ¬ ∃ results2, getResultsList parsed = some results2 ∧
        ∀ item ∈ results2, candidateOfItem employeeId (parseDateYYYYMMDD (asOfDate.getD ""))
          (parseFilterIds envRaw) item = none := by
      rintro ⟨results2, hgr2, hall⟩
      rw [hgr] at hgr2
      obtain rfl := Option.some.inj hgr2
      have hcand : patternCandidates results employeeId (parseDateYYYYMMDD (asOfDate.getD ""))
          (parseFilterIds envRaw) = [] := List.filterMap_eq_nil_iff.mpr hall
      rw [hcand] at hs
      simp [sortDescBy] at hs
    rcases hsub with ⟨hw, hres⟩ | ⟨hw, hres⟩
    · refine ⟨?_, ?_, ?_, ?_⟩
      · rw [hres]
        refine iff_of_false (by simp) ?_
        intro hni
        exact hni hex
      · rw [hres]
        exact iff_of_false (by simp) hnall
      · rw [hres]
        exact iff_of_true rfl ⟨p, hwin, hw⟩
      · constructor
        · rintro ⟨r, hr⟩
          rw [hres] at hr
          cases hr
        · rintro ⟨q, hq, hqn⟩
          rw [hwin] at hq
          obtain rfl := Option.some.inj hq
          exact (hqn hw).elim
    · refine ⟨?_, ?_, ?_, ?_⟩
      · rw [hres]
        refine iff_of_false (by simp) ?_
        intro hni
        exact hni hex
      · rw [hres]
        exact iff_of_false (by simp) hnall
      · constructor
        · intro hr
          rw [hres] at hr
          cases hr
        · rintro ⟨q, hq, hqe⟩
          rw [hwin] at hq
          obtain rfl := Option.some.inj hq
          exact absurd hqe hw
      · exact iff_of_true ⟨_, hres⟩ ⟨p, hwin, hw⟩

/-- Claim C3: every successful resolution returns as `weekly_minutes` the
sum over all normalized week tables of their day entries' minutes, and as
`per_day_minutes` the day list of the last week table with a non-empty day
sequence. -/
theorem aggregator_totals_spec (parsed : Option JVal) (employeeId : String)
    (asOfDate : Option String) (envRaw : String) (r : Resolved)
    (h : resolveWeeklyHoursFromWorkpatternBody parsed employeeId asOfDate envRaw = .ok r) :
    ∃ p, winningPattern parsed employeeId asOfDate envRaw = some p ∧
      normaliseWeekList p ≠ [] ∧
      r.weeklyMinutes = ((normaliseWeekList p).map (fun w => (dayMinutesList w).sum)).sum ∧
      r.perDayMinutes =
        (((normaliseWeekList p).map dayMinutesList).filter (fun l => !l.isEmpty)).getLastD [] := by
  rcases resolve_eq_cases parsed employeeId asOfDate envRaw with
    ⟨-, hres, -⟩ | ⟨results, -, -, hres, -⟩ | ⟨results, k, p, a, rest, -, -, hwin, hsub⟩
  · rw [h] at hres
    cases hres
  · rw [h] at hres
    cases hres
  · rcases hsub with ⟨-, hres⟩ | ⟨hw, hres⟩
    · rw [h] at hres
      cases hres
    · rw [h] at hres
      obtain rfl := Except.ok.inj hres
      refine ⟨p, hwin, hw, ?_, ?_⟩
      · show (aggregateWeeks (normaliseWeekList p)).1 = _
        rw [aggregateWeeks_eq]
      · show (aggregateWeeks (normaliseWeekList p)).2 = _
        rw [aggregateWeeks_eq]

/-- Witness for C3: week tables `[60, 120]` and `[30, 30, 30]` give
`weekly_minutes = 270` and `per_day_minutes = [30, 30, 30]`. -/
theorem aggregator_totals_spec_w :
    resolveWeeklyHoursFromWorkpatternBody (some docAgg) "1" none "" = .ok resolvedAgg ∧
    resolvedAgg.weeklyMinutes = 270 ∧ resolvedAgg.perDayMinutes = [30, 30, 30] ∧
    ∃ p, winningPattern (some docAgg) "1" none "" = some p ∧
      normaliseWeekList p ≠ [] ∧
      resolvedAgg.weeklyMinutes =
        ((normaliseWeekList p).map (fun w => (dayMinutesList w).sum)).sum ∧
      resolvedAgg.perDayMinutes =
        (((normaliseWeekList p).map dayMinutesList).filter (fun l => !l.isEmpty)).getLastD [] := by
  have hres : resolveWeeklyHoursFromWorkpatternBody (some docAgg) "1" none "" =
      .ok resolvedAgg := rfl
  exact ⟨hres, rfl, rfl, aggregator_totals_spec (some docAgg) "1" none "" resolvedAgg hres⟩

/-- Claim C10: when the winner's week data normalizes to at least one week
table but every table's day sequence is empty, resolution succeeds with
`weekly_minutes = 0` and an empty `per_day_minutes`. -/
theorem empty_day_tables_resolve_ok (parsed : Option JVal) (employeeId : String)
    (asOfDate : Option String) (envRaw : String) (p : JVal)
    (hwin : winningPattern parsed employeeId asOfDate envRaw = some p)
    (hne : normaliseWeekList p ≠ [])
    (hempty : ∀ w ∈ normaliseWeekList p, dayMinutesList w = []) :
    ∃ r, resolveWeeklyHoursFromWorkpatternBody parsed employeeId asOfDate envRaw = .ok r ∧
      r.weeklyMinutes = 0 ∧ r.perDayMinutes = [] := by
  rcases resolve_eq_cases parsed employeeId asOfDate envRaw with
    ⟨-, -, hwin2⟩ | ⟨results, -, -, -, hwin2⟩ | ⟨results, k, q, a, rest, -, -, hwin2, hsub⟩
  · rw [hwin] at hwin2
    cases hwin2
  · rw [hwin] at hwin2
    cases hwin2
  · obtain rfl : q = p := Option.some.inj (hwin2.symm.trans hwin)
    rcases hsub with ⟨hw0, -⟩ | ⟨-, hres⟩
    · exact absurd hw0 hne
    · refine ⟨_, hres, ?_, ?_⟩
      · show (aggregateWeeks (normaliseWeekList q)).1 = 0
        rw [aggregateWeeks_eq]
        apply List.sum_eq_zero
        intro x hx
        rcases List.mem_map.mp hx with ⟨w, hwmem, rfl⟩
        rw [hempty w hwmem]
        rfl
      · show (aggregateWeeks (normaliseWeekList q)).2 = []
        rw [aggregateWeeks_eq]
        have hfil : ((normaliseWeekList q).map dayMinutesList).filter
            (fun l => !l.isEmpty) = [] := by
          apply List.filter_eq_nil_iff.mpr
          intro x hx
          rcases List.mem_map.mp hx with ⟨w, hwmem, rfl⟩
          rw [hempty w hwmem]
          simp
        rw [hfil]
        rfl

/-- Witness for C10 at a concrete document with one empty week table. -/
theorem empty_day_tables_resolve_ok_w :
    winningPattern (some docEmptyWeeks) "1" none "" = some defEmptyWeeks ∧
    ∃ r, resolveWeeklyHoursFromWorkpatternBody (some docEmptyWeeks) "1" none "" = .ok r ∧
      r.weeklyMinutes = 0 ∧ r.perDayMinutes = [] := by
  have hwin : winningPattern (some docEmptyWeeks) "1" none "" = some defEmptyWeeks := rfl
  have hne : normaliseWeekList defEmptyWeeks ≠ [] := by
    rw [show normaliseWeekList defEmptyWeeks = [weekNoDays] from rfl]
    simp
  have hempty : ∀ w ∈ normaliseWeekList defEmptyWeeks, dayMinutesList w = [] := by
    rw [show normaliseWeekList defEmptyWeeks = [weekNoDays] from rfl]
    intro w hw
    obtain rfl := List.mem_singleton.mp hw
    rfl
  exact ⟨hwin,
    empty_day_tables_resolve_ok (some docEmptyWeeks) "1" none "" defEmptyWeeks hwin hne hempty⟩

/-- Counterexample to C6: the resolver reads the allow-list from the
process environment inside the resolution routine, so two resolutions
with identical document, subject and reference date give different
results under different environment values. -/
theorem resolver_reads_environment_cx :
    (resolveWeeklyHoursFromWorkpatternBody (some docTwoDefs) "1" none "5").map
        Resolved.weeklyMinutes ≠
      (resolveWeeklyHoursFromWorkpatternBody (some docTwoDefs) "1" none "9").map
        Resolved.weeklyMinutes := by
  intro hcontra
  have h5 : (resolveWeeklyHoursFromWorkpatternBody (some docTwoDefs) "1" none "5").map
      Resolved.weeklyMinutes = .ok 60 := rfl
  have h9 : (resolveWeeklyHoursFromWorkpatternBody (some docTwoDefs) "1" none "9").map
      Resolved.weeklyMinutes = .ok 90 := rfl
  rw [h5, h9] at hcontra
  exact absurd (Except.ok.inj hcontra) (by decide)

/-- Claim C6 amended: the allow-list is read from the
`PEOPLEHR_WORKPATTERN_ID_FILTER` environment variable inside the resolver
rather than passed by the caller; holding the document, subject, reference
date and the parsed allow-list value fixed, resolution is deterministic —
the environment influences the result only through the parsed filter
set. -/
theorem resolver_env_determinism (parsed : Option JVal) (employeeId : String)
    (asOfDate : Option String) (e₁ e₂ : String)
    (h : parseFilterIds e₁ = parseFilterIds e₂) :
    resolveWeeklyHoursFromWorkpatternBody parsed employeeId asOfDate e₁ =
      resolveWeeklyHoursFromWorkpatternBody parsed employeeId asOfDate e₂ := by
  unfold resolveWeeklyHoursFromWorkpatternBody
  rw [h]

/-- Witness for the amended C6: `"5,x"` and `" 5 "` parse to the same
allow-list, so resolution agrees on them. -/
theorem resolver_env_determinism_w :
    parseFilterIds "5,x" = parseFilterIds " 5 " ∧
    resolveWeeklyHoursFromWorkpatternBody (some docTwoDefs) "1" none "5,x" =
      resolveWeeklyHoursFromWorkpatternBody (some docTwoDefs) "1" none " 5 " :=
  ⟨by decide, resolver_env_determinism (some docTwoDefs) "1" none "5,x" " 5 " (by decide)⟩

